import Mathlib

/-!
Shallow embedding of the pyoracle_tui repository (src/pyoracle_tui.py,
src/sqltui/oracle.py) and verification of the specification claims.

The embedding models:
  * the result-streaming pipeline of src/sqltui/oracle.py
    (fetchrows, row2dict, the CSV DictWriter output of exec_oracle_query);
  * the coordinator and UI actions of src/pyoracle_tui.py
    (execute_query, on_button_pressed, action_reload_config, suspend,
     handle_blur / on_tabbed_content_tab_activated, get_results_file);
  * a small scheduler for the exclusive background-worker discipline.

Machine rows are modelled as lists of values of an abstract type, files as
lists of records, dictionaries as lookup functions built by insertion.
-/

namespace PyOracleTui

/-! ## Model of src/sqltui/oracle.py -/

/-- A database cursor, modelled as the ordered column names exposed by
cursor.description (row2dict and exec_oracle_query read colinfo[0]) together
with the fixed finite sequence of rows the query produces. -/
structure Cursor (alpha : Type) where
  description : List String
  rows : List (List alpha)

/-- Python: cursor.fetchmany(n) returns the next n rows (fewer at the end,
empty when exhausted).  State-passing model: the batch and the rest. -/
def fetchmany (rows : List (List alpha)) (n : Nat) : List (List alpha) × List (List alpha) :=
  (rows.take n, rows.drop n)

/-- Python source (src/sqltui/oracle.py, fetchrows): loop fetching batches of
num_rows rows until fetchmany returns an empty batch, yielding each row after
applying row_wrapper (row_wrapper absent means the row is yielded unchanged,
modelled by passing the identity function for wrap). -/
def fetchrows (wrap : List alpha → beta) (num_rows : Nat) (rows : List (List alpha)) :
    List beta :=
  if h : (rows.take num_rows).isEmpty then
    []
  else
    (rows.take num_rows).map wrap ++ fetchrows wrap num_rows (rows.drop num_rows)
termination_by rows.length
decreasing_by
  simp only [List.isEmpty_iff] at h
  have hr : rows ≠ [] := by
    intro hnil
    exact h (by simp [hnil])
  have hn : num_rows ≠ 0 := by
    intro h0
    exact h (by simp [h0])
  have hlen : 0 < rows.length := List.length_pos.mpr hr
  simp only [List.length_drop]
  exact Nat.sub_lt hlen (Nat.pos_of_ne_zero hn)

/-- Python dict insertion d[k] = v: later insertions shadow earlier ones. -/
def dictInsert (d : String → Option alpha) (k : String) (v : alpha) :
    String → Option alpha :=
  fun x => if x = k then some v else d x

/-- Python source (src/sqltui/oracle.py, row2dict): build a dict by iterating
over the columns, binding each column name to the row value at its position;
a duplicated name is therefore overwritten by the value at the later position.
The enumerate-and-index loop is modelled with zip, which agrees with it
whenever the row has at least as many entries as the column list (always true
for a database cursor, where both have the same length). -/
def row2dict (columns : List String) (row : List alpha) : String → Option alpha :=
  (columns.zip row).foldl (fun d p => dictInsert d p.1 p.2) (fun _ => none)

/-- csv.DictWriter writerow: the record written for a dict is the dict value
looked up at each field name, in field order (CPython csv._dict_to_list). -/
def dictToRecord (fieldNames : List String) (d : String → Option alpha) :
    List (Option alpha) :=
  fieldNames.map d

/-- The result artifact produced by one execution: a header record followed by
data records (the file is opened with mode w, so any prior content at the
path is truncated before the header is written). -/
structure Artifact (alpha : Type) where
  header : List String
  records : List (List (Option alpha))

/-- Python source (src/sqltui/oracle.py, exec_oracle_query), the part after
the connection is open: field_names are taken from cursor.description in
order, DictWriter.writeheader writes them as the first record, and each row
yielded by fetchrows (with batch size 200 and row_wrapper=row2dict) is
written as one record. -/
def exec_oracle_query (cur : Cursor alpha) : Artifact alpha :=
  let field_names := cur.description
  { header := field_names
    records :=
      fetchrows (fun row => dictToRecord field_names (row2dict field_names row))
        200 cur.rows }

/-- The hardcoded output path inside exec_oracle_query
(fname = "/tmp/results.csv" in src/sqltui/oracle.py). -/
def oracle_results_path : String := "/tmp/results.csv"

/-- The parameter list of def exec_oracle_query(host, db_name, user, passwd,
sql, port=1521) in src/sqltui/oracle.py; there is no **kwargs. -/
def exec_oracle_query_params : List String :=
  ["host", "db_name", "user", "passwd", "sql", "port"]

/-- A Python call with keyword arguments raises TypeError (unexpected keyword
argument) exactly when some keyword is not a declared parameter. -/
def callRaisesTypeError (kwargs : List String) : Bool :=
  kwargs.any (fun k => !(exec_oracle_query_params.contains k))

/-- The keyword arguments execute_query (src/pyoracle_tui.py) passes to
exec_oracle_query. -/
def execute_query_exec_kwargs : List String :=
  ["host", "db_name", "user", "passwd", "sql", "fname"]

/-- csv rendering of one data record: a missing value (None) is written as the
empty field by the csv writer. -/
def renderRecord (r : List (Option String)) : List String :=
  r.map (fun c => c.getD "")

/-- The sequence of csv records in the artifact file, in write order: the
header record first (DictWriter.writeheader), then one record per data row. -/
def fileRecords (a : Artifact String) : List (List String) :=
  a.header :: a.records.map renderRecord

/-- The value bound to key k by a sequence of insertions, i.e. the value of
the last pair whose key is k. -/
def lastVal : List (String × alpha) → String → Option alpha
  | [], _ => none
  | p :: t, k =>
    match lastVal t k with
    | some v => some v
    | none => if p.1 = k then some p.2 else none

/-- The index of the last occurrence of k in a list of strings. -/
def lastIdxOf : List String → String → Option Nat
  | [], _ => none
  | c :: t, k =>
    match lastIdxOf t k with
    | some i => some (i + 1)
    | none => if c = k then some 0 else none

/-- A position j is the last occurrence of its column name in cols. -/
def isLastOcc (cols : List String) (j : Nat) : Prop :=
  j < cols.length ∧ ∀ m, m < cols.length → j < m → cols[m]? ≠ cols[j]?

instance (cols : List String) (j : Nat) : Decidable (isLastOcc cols j) := by
  unfold isLastOcc
  infer_instance

/-! ## Model of src/pyoracle_tui.py -/

/-- One [tab.<index>] table of the configuration file: both path overrides
are optional. -/
structure TabConfig where
  sql_file : Option String
  results_file : Option String
deriving DecidableEq, Repr

/-- One [connections.<key>] table of the configuration file. -/
structure ConnConfig where
  desc : String
  host : String
  database : String
  user : String
  passwd : String
deriving DecidableEq, Repr

/-- The parsed configuration (tomllib.load result), as the app reads it. -/
structure Config where
  connections : List (String × ConnConfig)
  tab : List (String × TabConfig)
deriving DecidableEq, Repr

/-- Python source (src/pyoracle_tui.py, get_results_file): the configured
results_file of the active tab, or the deterministic fallback path. -/
def get_results_file (tc : TabConfig) (tab_index : String) : String :=
  tc.results_file.getD ("/tmp/results." ++ tab_index ++ ".csv")

/-- Python source (src/pyoracle_tui.py, get_query_file): the configured
sql_file of the tab, or the deterministic fallback path. -/
def get_query_file (tc : TabConfig) (tab_index : String) : String :=
  tc.sql_file.getD ("/tmp/query." ++ tab_index ++ ".sql")

/-- The display driver's two modes: application (interactive/raw) mode and
detached (stopped) mode. -/
inductive DriverMode
  | interactive
  | detached
deriving DecidableEq, Repr

/-- The state suspend manipulates: whether self.driver is present, the
driver mode, and a counter of forced redraws (self.refresh calls). -/
structure TermState where
  driverPresent : Bool
  mode : DriverMode
  refreshCount : Nat
deriving DecidableEq, Repr

/-- Python source (src/pyoracle_tui.py, suspend): when a driver is present it
calls driver.stop_application_mode, yields to the wrapped action, and only
after a NORMAL return of the action calls driver.start_application_mode and
self.refresh — there is no try/finally, so an exception raised by the action
propagates out of the with-block before start_application_mode runs.  An
action is a state transformer paired with a flag recording whether it raised.
When no driver is present the generator never yields, which contextmanager
turns into a RuntimeError at with-entry (the action never runs); that exit
path is also modelled as a raising exit. -/
def suspend (st : TermState) (action : TermState → TermState × Bool) :
    TermState × Bool :=
  if st.driverPresent then
    let st1 : TermState := { st with mode := DriverMode.detached }
    let res := action st1
    if res.2 then
      (res.1, true)
    else
      ({ res.1 with
          mode := DriverMode.interactive
          refreshCount := res.1.refreshCount + 1 }, false)
  else
    (st, true)

/-- A state with a present driver in interactive mode, used as a concrete
input for the suspension theorems. -/
def suspendDemoState : TermState :=
  { driverPresent := true, mode := DriverMode.interactive, refreshCount := 0 }

/-- A wrapped action that raises (for example the spawned child process call
throwing FileNotFoundError because the editor command does not exist). -/
def raisingAction : TermState → TermState × Bool :=
  fun s => (s, true)

/-- A wrapped action that returns normally without touching the state. -/
def normalAction : TermState → TermState × Bool :=
  fun s => (s, false)

/-- The ways load_config can fail: open raises FileNotFoundError, or
tomllib.load raises TOMLDecodeError on malformed input. -/
inductive LoadError
  | fileNotFound
  | tomlDecodeError (msg : String)
deriving DecidableEq, Repr

/-- Observable result of the reload action: the config active afterwards,
the user-visible message shown (if any), and an exception escaping the
action (if any). -/
structure ReloadOutcome where
  config : Config
  message : Option String
  uncaught : Option LoadError
deriving DecidableEq, Repr

/-- Python source (src/pyoracle_tui.py, action_reload_config): it runs
app.config = load_config() and then show_message("Configuration reloaded.")
with no exception handling, so when the underlying load fails the assignment
never happens (the previous config stays active), no message is shown, and
the exception escapes the action.  The filesystem outcome of load_config is
passed in as an Except value. -/
def action_reload_config (current : Config)
    (loadResult : Except LoadError Config) : ReloadOutcome :=
  match loadResult with
  | Except.ok c =>
      { config := c, message := some "Configuration reloaded.", uncaught := none }
  | Except.error e =>
      { config := current, message := none, uncaught := some e }

/-- A concrete previously loaded configuration. -/
def demoConfig : Config :=
  { connections := [("oracle_prod", ⟨"Prod", "dbhost", "ORCL", "scott", "tiger"⟩)]
    tab := [("1", ⟨none, none⟩)] }

/-- Exceptions a background query worker can raise: the oracledb
DatabaseError that execute_query catches, and anything else (for example the
TypeError raised by calling exec_oracle_query with the unexpected keyword
argument fname, or a KeyError from a missing connection field). -/
inductive PyError
  | databaseError (msg : String)
  | typeError (msg : String)
  | otherError (msg : String)
deriving DecidableEq, Repr

/-- What the coordinator boundary does with one worker run. -/
inductive WorkerOutcome
  | noConnection
  | databaseErrorShown (msg : String)
  | completedPopulate
  | escaped (e : PyError)
deriving DecidableEq, Repr

/-- Python source (src/pyoracle_tui.py, execute_query): with a blank
connection selector it toggles the button back and returns; otherwise the
try-block around exec_oracle_query catches ONLY DatabaseError (converted to
a "Database error: ..." message plus a button toggle); on success it
populates the table; any other exception propagates out of the worker
function uncaught. -/
def execute_query_outcome (connSelected : Bool)
    (execResult : Except PyError Unit) : WorkerOutcome :=
  if connSelected = false then
    WorkerOutcome.noConnection
  else
    match execResult with
    | Except.ok _ => WorkerOutcome.completedPopulate
    | Except.error (PyError.databaseError m) =>
        WorkerOutcome.databaseErrorShown ("Database error: " ++ m)
    | Except.error e => WorkerOutcome.escaped e

/-- The per-tab UI state touched by the execute-button flow: the displayed
table (none means cleared, columns included), the execute button's disabled
flag, and the list of messages shown so far. -/
structure TabUI where
  tableRows : Option (List (List String))
  executeDisabled : Bool
  messages : List String
deriving DecidableEq, Repr

/-- Python source (src/pyoracle_tui.py, clear_table):
table.clear(columns=True). -/
def clear_table (s : TabUI) : TabUI :=
  { s with tableRows := none }

/-- Python source (src/pyoracle_tui.py, toggle_button_state):
button.disabled = not button.disabled. -/
def toggle_button_state (s : TabUI) : TabUI :=
  { s with executeDisabled := !s.executeDisabled }

/-- Python source (src/pyoracle_tui.py, execute_query) in the blank-selector
case: call_from_thread(toggle_button_state) then return — no message, no
populate, no status change. -/
def execute_query_blank_conn (s : TabUI) : TabUI :=
  toggle_button_state s

/-- Python source (src/pyoracle_tui.py, on_button_pressed) for an execute
button when no connection is selected: clear_table, toggle_button_state,
then the worker body execute_query which toggles once more and returns. -/
def on_button_pressed_blank_conn (s : TabUI) : TabUI :=
  execute_query_blank_conn (toggle_button_state (clear_table s))

/-- A UI state whose table currently displays one prior result row. -/
def uiWithRows : TabUI :=
  { tableRows := some [["42"]], executeDisabled := false, messages := [] }

/-- Modelled from the spec: the machinery behind the work(exclusive=True)
decorator on execute_query is not part of the repository sources (only the
decorator application is), so the single-flight discipline is modelled from
the specification's words: a monotonically increasing generation counter per
execution; each background run captures its generation at start; a
completion callback applies its UI/session mutations only if its generation
is still the current one, else it is discarded. -/
structure SchedState where
  currentGen : Nat
  uiMutations : List (Nat × String)
deriving DecidableEq, Repr

/-- Modelled from the spec: starting a new execution advances the generation
counter, superseding every execution started earlier. -/
def startRun (s : SchedState) : SchedState :=
  { s with currentGen := s.currentGen + 1 }

/-- Modelled from the spec: a completion callback of the execution with
generation gen applies its mutation only when gen is still current. -/
def deliverCallback (s : SchedState) (gen : Nat) (m : String) : SchedState :=
  if gen = s.currentGen then
    { s with uiMutations := s.uiMutations ++ [(gen, m)] }
  else
    s

/-- One event the scheduler can process: a new run starting, or a completion
callback of the run with the given generation arriving. -/
inductive SchedStep
  | start
  | callback (gen : Nat) (m : String)
deriving DecidableEq, Repr

def applyStep (s : SchedState) : SchedStep → SchedState
  | SchedStep.start => startRun s
  | SchedStep.callback g m => deliverCallback s g m

def applySteps (s : SchedState) (steps : List SchedStep) : SchedState :=
  steps.foldl applyStep s

/-- The platform line separator on Linux (os.linesep), used by text-mode
writes with the default newline=None. -/
def os_linesep : List Char := [Char.ofNat 10]

/-- Python text-mode file WRITE with newline=None (open(fname, "w")): every
LF written by the program is translated to os.linesep; all other characters
pass through.  On Linux this is the identity. -/
def writeTextMode : List Char → List Char
  | [] => []
  | c :: t => (if c = Char.ofNat 10 then os_linesep else [c]) ++ writeTextMode t

/-- Python text-mode file READ with newline=None (open(fname, "r")):
universal-newline decoding maps CRLF to LF and a lone CR to LF. -/
def readUniversalNewlines : List Char → List Char
  | [] => []
  | c :: d :: t =>
    if c = Char.ofNat 13 then
      if d = Char.ofNat 10 then Char.ofNat 10 :: readUniversalNewlines t
      else Char.ofNat 10 :: readUniversalNewlines (d :: t)
    else c :: readUniversalNewlines (d :: t)
  | [c] => if c = Char.ofNat 13 then [Char.ofNat 10] else [c]

/-- Python source (src/pyoracle_tui.py, handle_blur): when the query editor
of a tab blurs, its text is written wholesale to the tab's scratch file in
text mode; afterwards the file exists with that (write-translated) content. -/
def handle_blur (text : List Char) : Option (List Char) :=
  some (writeTextMode text)

/-- Python source (src/pyoracle_tui.py, on_tabbed_content_tab_activated):
when a tab is activated, if its scratch file does not exist the editor text
is left unchanged; otherwise the file is read in text mode (universal
newlines) and becomes the editor text. -/
def on_tabbed_content_tab_activated (file : Option (List Char))
    (currentText : List Char) : List Char :=
  match file with
  | none => currentText
  | some data => readUniversalNewlines data

/-! ## Supporting theorems -/

theorem fetchrows_eq_map (wrap : List alpha → beta) (n : Nat) (hn : 1 ≤ n) :
    ∀ rows : List (List alpha), fetchrows wrap n rows = rows.map wrap := by
  have key : ∀ (m : Nat) (rows : List (List alpha)), rows.length ≤ m →
      fetchrows wrap n rows = rows.map wrap := by
    intro m
    induction m with
    | zero =>
      intro rows h
      have : rows = [] := List.length_eq_zero.mp (Nat.le_zero.mp h)
      subst this
      rw [fetchrows]
      simp
    | succ m ih =>
      intro rows h
      rw [fetchrows]
      by_cases hempty : (rows.take n).isEmpty
      · simp only [hempty]
        simp only [List.isEmpty_iff, List.take_eq_nil_iff] at hempty
        rcases hempty with h0 | hnil
        · omega
        · simp [hnil]
      · simp only [hempty]
        have hr : rows ≠ [] := by
          intro hnil
          exact hempty (by simp [hnil])
        have hlen : 0 < rows.length := List.length_pos.mpr hr
        have hdrop : (rows.drop n).length ≤ m := by
          simp only [List.length_drop]
          omega
        rw [ih (rows.drop n) hdrop, ← List.map_append, List.take_append_drop]
        simp [hempty]
  intro rows
  exact key rows.length rows (Nat.le_refl _)

theorem foldl_dictInsert_eq_lastVal (l : List (String × alpha))
    (d : String → Option alpha) (k : String) :
    (l.foldl (fun d p => dictInsert d p.1 p.2) d) k =
      match lastVal l k with
      | some v => some v
      | none => d k := by
  induction l generalizing d with
  | nil => rfl
  | cons p t ih =>
    simp only [List.foldl_cons, lastVal]
    rw [ih]
    cases hlv : lastVal t k with
    | some v => simp
    | none =>
      simp only [dictInsert]
      by_cases hk : k = p.1
      · simp [hk]
      · have hk2 : ¬ p.1 = k := fun e => hk e.symm
        simp [hk, hk2]

theorem lastIdxOf_lt_length (cols : List String) (k : String) (i : Nat)
    (h : lastIdxOf cols k = some i) : i < cols.length := by
  induction cols generalizing i with
  | nil => simp [lastIdxOf] at h
  | cons c t ih =>
    simp only [lastIdxOf] at h
    cases hidx : lastIdxOf t k with
    | some j =>
      rw [hidx] at h
      have : i = j + 1 := by
        simpa using h.symm
      subst this
      have := ih j hidx
      simp
      omega
    | none =>
      rw [hidx] at h
      by_cases hc : c = k
      · simp [hc] at h
        subst h
        simp
      · simp [hc] at h

theorem lastVal_zip_eq_lastIdxOf (cols : List String) (row : List alpha)
    (hlen : row.length = cols.length) (k : String) :
    lastVal (cols.zip row) k = (lastIdxOf cols k).bind (fun i => row.get? i) := by
  induction cols generalizing row with
  | nil =>
    have : row = [] := List.length_eq_zero.mp (by simpa using hlen)
    subst this
    rfl
  | cons c t ih =>
    cases row with
    | nil => simp at hlen
    | cons r rt =>
      have hlen2 : rt.length = t.length := by simpa using hlen
      simp only [List.zip_cons_cons, lastVal, lastIdxOf]
      have ihz : lastVal (List.zipWith Prod.mk t rt) k =
          (lastIdxOf t k).bind (fun i => rt.get? i) := ih rt hlen2
      rw [ihz]
      cases hidx : lastIdxOf t k with
      | some i =>
        have hi : i < rt.length := by
          have := lastIdxOf_lt_length t k i hidx
          omega
        have hget : rt[i]? = some (rt.get ⟨i, hi⟩) := List.getElem?_eq_getElem hi
        simp [hget]
      | none =>
        by_cases hc : c = k <;> simp [hc]

theorem lastIdxOf_getElem (cols : List String) (k : String) (i : Nat)
    (h : lastIdxOf cols k = some i) : cols[i]? = some k := by
  induction cols generalizing i with
  | nil => simp [lastIdxOf] at h
  | cons c t ih =>
    simp only [lastIdxOf] at h
    cases hidx : lastIdxOf t k with
    | some j =>
      rw [hidx] at h
      have hij : i = j + 1 := by simpa using h.symm
      subst hij
      simpa using ih j hidx
    | none =>
      rw [hidx] at h
      by_cases hc : c = k
      · simp [hc] at h
        subst h
        simp [hc]
      · simp [hc] at h

theorem lastIdxOf_eq_none_iff (cols : List String) (k : String) :
    lastIdxOf cols k = none ↔ k ∉ cols := by
  induction cols with
  | nil => simp [lastIdxOf]
  | cons c t ih =>
    simp only [lastIdxOf]
    cases hidx : lastIdxOf t k with
    | some j =>
      have hk : k ∈ t := by
        have := lastIdxOf_getElem t k j hidx
        exact List.getElem?_mem this
      simp [hk]
    | none =>
      have hk : k ∉ t := (ih.mp hidx)
      by_cases hc : c = k
      · simp [hc]
      · simp [hc, hk, Ne.symm hc]

theorem lastIdxOf_is_last (cols : List String) (k : String) (i : Nat)
    (h : lastIdxOf cols k = some i) :
    ∀ m, i < m → cols[m]? ≠ some k := by
  induction cols generalizing i with
  | nil => simp [lastIdxOf] at h
  | cons c t ih =>
    simp only [lastIdxOf] at h
    cases hidx : lastIdxOf t k with
    | some j =>
      rw [hidx] at h
      have hij : i = j + 1 := by simpa using h.symm
      subst hij
      intro m hm
      cases m with
      | zero => omega
      | succ m2 =>
        have := ih j hidx m2 (by omega)
        simpa using this
    | none =>
      rw [hidx] at h
      by_cases hc : c = k
      · simp [hc] at h
        subst h
        intro m hm
        cases m with
        | zero => omega
        | succ m2 =>
          have hk : k ∉ t := (lastIdxOf_eq_none_iff t k).mp hidx
          simp only [List.getElem?_cons_succ]
          intro hmem
          exact hk (List.getElem?_mem hmem)
      · simp [hc] at h

theorem lastIdxOf_of_isLastOcc (cols : List String) (j : Nat)
    (h : isLastOcc cols j) :
    ∃ k : String, cols[j]? = some k ∧ lastIdxOf cols k = some j := by
  obtain ⟨hj, hlater⟩ := h
  obtain ⟨k, hk⟩ : ∃ k, cols[j]? = some k := by
    exact ⟨cols[j], List.getElem?_eq_getElem hj⟩
  refine ⟨k, hk, ?_⟩
  cases hidx : lastIdxOf cols k with
  | none =>
    have : k ∉ cols := (lastIdxOf_eq_none_iff cols k).mp hidx
    exact absurd (List.getElem?_mem hk) this
  | some i =>
    have hik : cols[i]? = some k := lastIdxOf_getElem cols k i hidx
    have h1 : ¬ i < j := fun hij => (lastIdxOf_is_last cols k i hidx j hij) hk
    have h2 : ¬ j < i := fun hij =>
      (hlater i (lastIdxOf_lt_length cols k i hidx) hij) (by rw [hik, hk])
    have heq : i = j := by omega
    subst heq
    rfl

theorem isLastOcc_of_lastIdxOf (cols : List String) (k : String) (i : Nat)
    (h : lastIdxOf cols k = some i) : isLastOcc cols i := by
  refine ⟨lastIdxOf_lt_length cols k i h, ?_⟩
  intro m hm him
  rw [lastIdxOf_getElem cols k i h]
  exact lastIdxOf_is_last cols k i h m him

theorem lastIdxOf_some_of_mem (cols : List String) (k : String)
    (h : k ∈ cols) : ∃ i, lastIdxOf cols k = some i := by
  cases hidx : lastIdxOf cols k with
  | none => exact absurd h ((lastIdxOf_eq_none_iff cols k).mp hidx)
  | some i => exact ⟨i, rfl⟩

theorem row2dict_lookup (cols : List String) (row : List alpha)
    (hlen : row.length = cols.length) (k : String) :
    row2dict cols row k = (lastIdxOf cols k).bind (fun i => row.get? i) := by
  unfold row2dict
  rw [foldl_dictInsert_eq_lastVal, lastVal_zip_eq_lastIdxOf cols row hlen]
  cases lastIdxOf cols k with
  | none => simp
  | some i =>
    cases hri : row[i]? <;> simp [hri]

theorem applyStep_currentGen_mono (s : SchedState) (st : SchedStep) :
    s.currentGen ≤ (applyStep s st).currentGen := by
  cases st with
  | start => simp [applyStep, startRun]
  | callback g m =>
    simp only [applyStep, deliverCallback]
    by_cases hg : g = s.currentGen <;> simp [hg]

theorem applySteps_mutations (g : Nat) (t : SchedState)
    (steps : List SchedStep) (hg : g < t.currentGen) :
    ∀ p ∈ (applySteps t steps).uiMutations, p ∈ t.uiMutations ∨ g < p.1 := by
  induction steps generalizing t with
  | nil =>
    intro p hp
    exact Or.inl hp
  | cons st rest ih =>
    intro p hp
    have hg2 : g < (applyStep t st).currentGen :=
      Nat.lt_of_lt_of_le hg (applyStep_currentGen_mono t st)
    have hstep := ih (applyStep t st) hg2 p hp
    rcases hstep with hmem | hgt
    · cases st with
      | start =>
        exact Or.inl (by simpa [applyStep, startRun] using hmem)
      | callback gen m =>
        simp only [applyStep, deliverCallback] at hmem
        by_cases hgen : gen = t.currentGen
        · rw [if_pos hgen] at hmem
          simp only [List.mem_append, List.mem_singleton] at hmem
          rcases hmem with hold | hnew
          · exact Or.inl hold
          · subst hnew
            exact Or.inr (by simpa [hgen] using hg)
        · rw [if_neg hgen] at hmem
          exact Or.inl hmem
    · exact Or.inr hgt

theorem writeTextMode_id (t : List Char) : writeTextMode t = t := by
  induction t with
  | nil => rfl
  | cons c t ih =>
    simp only [writeTextMode, os_linesep]
    by_cases hc : c = Char.ofNat 10
    · subst hc
      simp [ih]
    · simp [hc, ih]

theorem readUniversalNewlines_id (t : List Char)
    (h : Char.ofNat 13 ∉ t) : readUniversalNewlines t = t := by
  have key : ∀ (n : Nat) (t : List Char), t.length ≤ n →
      Char.ofNat 13 ∉ t → readUniversalNewlines t = t := by
    intro n
    induction n with
    | zero =>
      intro t ht hmem
      have : t = [] := List.length_eq_zero.mp (Nat.le_zero.mp ht)
      subst this
      rfl
    | succ n ih =>
      intro t ht hmem
      cases t with
      | nil => rfl
      | cons c t2 =>
        have hc : c ≠ Char.ofNat 13 := by
          intro e
          exact hmem (e ▸ List.mem_cons_self c t2)
        have hmem2 : Char.ofNat 13 ∉ t2 := fun m => hmem (List.mem_cons_of_mem c m)
        cases t2 with
        | nil =>
          simp [readUniversalNewlines, hc]
        | cons d t3 =>
          have hlen : (d :: t3).length ≤ n := by
            simp only [List.length_cons] at ht ⊢
            omega
          simp only [readUniversalNewlines, if_neg hc]
          rw [ih (d :: t3) hlen hmem2]
  exact key t.length t (Nat.le_refl _) h

/-! ## Claim theorems -/

/-- C1: the claim says rows produced by a run are written to the
ResultArtifact path bound to the tab (the configured results_file or
/tmp/results.<tabIndex>.csv), the same path the table-repopulation step later
reads.  The code cannot do this: exec_oracle_query has no fname parameter
(the call passing fname raises TypeError) and internally hardcodes
/tmp/results.csv, which differs from the path populate_table reads for
tab "1" with no configured results_file. -/
theorem results_path_fname_bug :
    callRaisesTypeError execute_query_exec_kwargs = true ∧
    get_results_file { sql_file := none, results_file := none } "1" ≠
      oracle_results_path := by
  constructor
  · decide
  · decide

/-- C2 counterexample: a wrapped action that raises leaves the display
driver in the detached state when control leaves suspend, contradicting the
claim that the driver is restored on every exit path. -/
theorem suspend_raising_action_leaves_detached :
    (suspend suspendDemoState raisingAction).1.mode = DriverMode.detached ∧
    (suspend suspendDemoState raisingAction).2 = true := by
  constructor <;> rfl

/-- C2 (amended): only when the wrapped action completes normally (and a
driver is present) is the driver restored to interactive mode and a redraw
forced before control leaves suspend; a raising action propagates with the
driver still detached. -/
theorem suspend_restores_on_normal_completion (st : TermState)
    (action : TermState → TermState × Bool)
    (hd : st.driverPresent = true)
    (hok : (action { st with mode := DriverMode.detached }).2 = false) :
    (suspend st action).1.mode = DriverMode.interactive ∧
    (suspend st action).2 = false ∧
    (suspend st action).1.refreshCount =
      (action { st with mode := DriverMode.detached }).1.refreshCount + 1 := by
  simp only [hd] at hok
  simp [suspend, hd, hok]

theorem suspend_restores_on_normal_completion_witness :
    suspendDemoState.driverPresent = true ∧
    ((suspend suspendDemoState normalAction).1.mode = DriverMode.interactive ∧
     (suspend suspendDemoState normalAction).2 = false ∧
     (suspend suspendDemoState normalAction).1.refreshCount =
       (normalAction { suspendDemoState with mode := DriverMode.detached }).1.refreshCount + 1) :=
  ⟨rfl, suspend_restores_on_normal_completion suspendDemoState normalAction rfl rfl⟩

/-- C3 counterexample: a TypeError raised inside the background query worker
(for example by the exec_oracle_query call itself, whose signature rejects
the fname keyword) is NOT caught at the coordinator boundary: it escapes as
an uncaught exception instead of being converted to a message plus a status
transition. -/
theorem worker_typeError_escapes_coordinator :
    execute_query_outcome true
        (Except.error (PyError.typeError "unexpected keyword argument fname")) =
      WorkerOutcome.escaped (PyError.typeError "unexpected keyword argument fname") :=
  rfl

/-- C3 (amended): only DatabaseError failures raised inside the background
query worker are caught at the coordinator boundary and converted to a
user-visible "Database error: ..." message plus a status transition; any
other exception escapes the coordinator. -/
theorem coordinator_catches_only_databaseError (m t : String) :
    execute_query_outcome true (Except.error (PyError.databaseError m)) =
        WorkerOutcome.databaseErrorShown ("Database error: " ++ m) ∧
    execute_query_outcome true (Except.error (PyError.typeError t)) =
        WorkerOutcome.escaped (PyError.typeError t) ∧
    execute_query_outcome true (Except.error (PyError.otherError t)) =
        WorkerOutcome.escaped (PyError.otherError t) ∧
    execute_query_outcome true (Except.ok ()) = WorkerOutcome.completedPopulate :=
  ⟨rfl, rfl, rfl, rfl⟩

/-- C4 counterexample: when the underlying load fails, action_reload_config
produces no user-visible message and lets the exception escape (the claim
says the failure is surfaced as a message and the process never crashes). -/
theorem reload_failure_uncaught :
    (action_reload_config demoConfig (Except.error LoadError.fileNotFound)).message = none ∧
    (action_reload_config demoConfig (Except.error LoadError.fileNotFound)).uncaught =
      some LoadError.fileNotFound :=
  ⟨rfl, rfl⟩

/-- C4 (amended): on a failed load the previously loaded config remains
active and unchanged, but no user-visible message is produced and the
exception propagates uncaught out of the action; on success the entire
in-memory config is swapped wholesale and a confirmation message is shown. -/
theorem reload_keeps_config_but_raises (current : Config) (e : LoadError)
    (c : Config) :
    action_reload_config current (Except.error e) =
      { config := current, message := none, uncaught := some e } ∧
    action_reload_config current (Except.ok c) =
      { config := c, message := some "Configuration reloaded.", uncaught := none } :=
  ⟨rfl, rfl⟩

/-- C5: in the generation-counter model of the exclusive single-flight
scheduler, once a new run has started (startRun), every UI mutation present
after any further sequence of scheduler events either predates the new run
or was produced by a generation newer than every execution in flight before
it — so a superseded execution's eventual completion callback never mutates
session or UI state. -/
theorem superseded_callback_never_mutates (s : SchedState)
    (steps : List SchedStep) (p : Nat × String)
    (hp : p ∈ (applySteps (startRun s) steps).uiMutations) :
    p ∈ s.uiMutations ∨ s.currentGen < p.1 := by
  have hg : s.currentGen < (startRun s).currentGen := by
    simp [startRun]
  have hres := applySteps_mutations s.currentGen (startRun s) steps hg p hp
  simpa [startRun] using hres

theorem superseded_callback_never_mutates_witness :
    (1, "populate") ∈
        (applySteps (startRun (SchedState.mk 0 []))
          [SchedStep.callback 1 "populate"]).uiMutations ∧
    ((1, "populate") ∈ (SchedState.mk 0 []).uiMutations ∨
      (SchedState.mk 0 []).currentGen < (1, "populate").1) :=
  ⟨by decide,
   superseded_callback_never_mutates (SchedState.mk 0 [])
     [SchedStep.callback 1 "populate"] (1, "populate") (by decide)⟩

/-- C6: for every completed execution the artifact begins with exactly one
header record equal to the cursor's column names in the cursor's order,
written before any data record, and the number of data records equals the
number of rows the query produced. -/
theorem artifact_header_first_and_rowcount (cur : Cursor String) :
    fileRecords (exec_oracle_query cur) =
      cur.description :: (exec_oracle_query cur).records.map renderRecord ∧
    (exec_oracle_query cur).header = cur.description ∧
    (exec_oracle_query cur).records.length = cur.rows.length := by
  refine ⟨rfl, rfl, ?_⟩
  have h := fetchrows_eq_map
    (fun row => dictToRecord cur.description (row2dict cur.description row))
    200 (by omega) cur.rows
  simp only [exec_oracle_query]
  rw [h]
  simp

/-- C7: the batch size is not observable in the result: for every batch size
n >= 1 the sequence of rows yielded by fetchrows is the cursor's full row
sequence in order, identical in particular to what the default batch size
200 yields. -/
theorem fetchrows_batch_size_unobservable (rows : List (List alpha)) (n : Nat)
    (hn : 1 ≤ n) :
    fetchrows (fun r => r) n rows = rows ∧
    fetchrows (fun r => r) n rows = fetchrows (fun r => r) 200 rows := by
  have h1 := fetchrows_eq_map (fun r : List alpha => r) n hn rows
  have h2 := fetchrows_eq_map (fun r : List alpha => r) 200 (by omega) rows
  constructor
  · rw [h1]
    simp
  · rw [h1, h2]

theorem fetchrows_batch_size_unobservable_witness :
    (1 ≤ 3) ∧
    (fetchrows (fun r => r) 3 [[10], [20, 30], [40]] = [[10], [20, 30], [40]] ∧
     fetchrows (fun r => r) 3 [[10], [20, 30], [40]] =
       fetchrows (fun r => r) 200 [[10], [20, 30], [40]]) :=
  ⟨by omega, fetchrows_batch_size_unobservable ([[10], [20, 30], [40]] : List (List Nat)) 3 (by omega)⟩

/-- C8 counterexample: a text containing a bare carriage return does not
round-trip through the scratch file: text-mode reading translates the CR to
LF, so loadText returns a different text. -/
theorem scratch_roundtrip_cr_counterexample :
    on_tabbed_content_tab_activated (handle_blur ['a', '\r', 'b'])
        ['a', '\r', 'b'] ≠ ['a', '\r', 'b'] := by
  decide

/-- C8 (amended): for every tab and every text whose line endings are plain
LF (no carriage-return characters; Unicode and embedded LF newlines
allowed), saving on blur followed by loading on tab activation returns
exactly the original text.  Texts containing CR or CRLF have those sequences
normalized to LF by the universal-newline read. -/
theorem scratch_roundtrip_no_cr (text cur : List Char)
    (h : Char.ofNat 13 ∉ text) :
    on_tabbed_content_tab_activated (handle_blur text) cur = text := by
  show readUniversalNewlines (writeTextMode text) = text
  rw [writeTextMode_id, readUniversalNewlines_id text h]

theorem scratch_roundtrip_no_cr_witness :
    (Char.ofNat 13 ∉ ['S', '\n', 'λ']) ∧
    on_tabbed_content_tab_activated (handle_blur ['S', '\n', 'λ']) [] =
      ['S', '\n', 'λ'] :=
  ⟨by decide, scratch_roundtrip_no_cr ['S', '\n', 'λ'] [] (by decide)⟩

/-- C9 counterexample: pressing execute with no connection selected is NOT a
no-op with respect to UI state: the handler clears the displayed results
table before the blank-selector check, so a state showing prior rows is
changed. -/
theorem blank_conn_press_not_noop :
    on_button_pressed_blank_conn uiWithRows ≠ uiWithRows := by
  decide

/-- C9 (amended): pressing execute with no connection selected transitions
no status and surfaces no error, and the execute button's enabled state ends
where it started (it is toggled off by the press handler and toggled back by
the worker's early return); the one UI effect is that the results table is
cleared. -/
theorem blank_conn_press_effects (s : TabUI) :
    on_button_pressed_blank_conn s = { s with tableRows := none } := by
  cases s with
  | mk tr ed ms =>
    simp [on_button_pressed_blank_conn, execute_query_blank_conn,
      toggle_button_state, clear_table]

/-- C10: with a duplicated column name in the cursor description, row2dict
binds that name to the row value at the last position bearing it, so in the
written record every field position sharing the name carries that last
value, and a value v that no last-occurrence position holds (for example the
value at an earlier duplicate position, when distinct) never appears in any
data record cell. -/
theorem duplicate_column_last_wins (cols : List String) (row : List alpha)
    (j : Nat) (v : alpha)
    (hlen : row.length = cols.length)
    (hlast : isLastOcc cols j)
    (hv : ∀ i2, i2 < cols.length → isLastOcc cols i2 → row.get? i2 ≠ some v) :
    row2dict cols row (cols.getD j "") = row.get? j ∧
    (∀ m, m < cols.length → cols[m]? = cols[j]? →
      (dictToRecord cols (row2dict cols row))[m]? = some (row.get? j)) ∧
    (∀ c ∈ dictToRecord cols (row2dict cols row), c ≠ some v) := by
  obtain ⟨k, hk, hidx⟩ := lastIdxOf_of_isLastOcc cols j hlast
  have hgetD : cols.getD j "" = k := by
    rw [List.getD_eq_getElem?_getD, hk]
    rfl
  have hlook : row2dict cols row k = row.get? j := by
    rw [row2dict_lookup cols row hlen k, hidx]
    rfl
  refine ⟨by rw [hgetD, hlook], ?_, ?_⟩
  · intro m hm hmj
    have hmk : cols[m]? = some k := by rw [hmj, hk]
    have hmap : (dictToRecord cols (row2dict cols row))[m]? =
        (cols[m]?).map (row2dict cols row) := by
      simp [dictToRecord]
    rw [hmap, hmk]
    simp [hlook]
  · intro c hc
    simp only [dictToRecord, List.mem_map] at hc
    obtain ⟨name, hname, hcval⟩ := hc
    obtain ⟨i2, hidx2⟩ := lastIdxOf_some_of_mem cols name hname
    have hlast2 : isLastOcc cols i2 := isLastOcc_of_lastIdxOf cols name i2 hidx2
    have hlook2 : row2dict cols row name = row.get? i2 := by
      rw [row2dict_lookup cols row hlen name, hidx2]
      rfl
    rw [← hcval, hlook2]
    exact hv i2 (lastIdxOf_lt_length cols name i2 hidx2) hlast2

/-- Concrete description with the name A duplicated at positions 0 and 2. -/
def dupCols : List String := ["A", "B", "A"]

/-- A concrete row aligned with dupCols. -/
def dupRow : List Nat := [10, 20, 30]

theorem duplicate_column_last_wins_witness :
    dupRow.length = dupCols.length ∧
    isLastOcc dupCols 2 ∧
    (∀ i2, i2 < dupCols.length → isLastOcc dupCols i2 → dupRow.get? i2 ≠ some 10) ∧
    (row2dict dupCols dupRow (dupCols.getD 2 "") = dupRow.get? 2 ∧
     (∀ m, m < dupCols.length → dupCols[m]? = dupCols[2]? →
       (dictToRecord dupCols (row2dict dupCols dupRow))[m]? = some (dupRow.get? 2)) ∧
     (∀ c ∈ dictToRecord dupCols (row2dict dupCols dupRow), c ≠ some 10)) :=
  ⟨by decide, by decide, by decide,
   duplicate_column_last_wins dupCols dupRow 2 10 (by decide) (by decide) (by decide)⟩
